import Mathlib

/-!
Verification of the partitioned graph ingestion and storage-layout
management subsystem (Apache AGE ingestion scripts).

The definitions below are a shallow embedding of the Python sources:

* `ingestion.py` — `AGEGraphIngestion` (`ingest_vertex`, `ingest_edge`,
  `ingest_vertices_batch`, `ingest_edges_batch`, `_resolve_vertex_id`,
  `bulk_ingest_from_dict`, `_convert_properties_to_agtype`);
* `age_ingestion2.py` / `age_ingestion3.py` — `ingest_triplets` (MERGE-based
  vertex upserts, naive f-string property formatting);
* `partitioned_schema.py` / `date_and_range_partitioned_age_schema.py` —
  `create_truly_partitioned_schema`, `_restore_from_backup`,
  `cleanup_old_date_partitions`.

The Apache AGE store itself is modelled as an explicit state (lists of
vertices, edges and tables); SQL/Cypher statements become constructors of
small statement types together with an executable interpreter, so every
claim can be evaluated on concrete inputs.
-/

/-- Property values as they reach the encoders after the normalisation
performed by `_convert_properties_to_agtype` (datetimes have already been
turned into their ISO-8601 strings, so only strings, integers and booleans
remain at the leaves that the claims exercise). -/
inductive PyVal where
  | vstr (s : String)
  | vint (n : Int)
  | vbool (b : Bool)
deriving DecidableEq

/-- An ordered property map, mirroring a Python `dict` in insertion order. -/
abbrev Props := List (String × PyVal)

/-- A vertex of the AGE graph: internal id, label and properties. -/
structure Vertex where
  id : Nat
  label : String
  props : Props
deriving DecidableEq

/-- An edge of the AGE graph: internal id, label, endpoint ids, properties. -/
structure Edge where
  id : Nat
  label : String
  startId : Nat
  endId : Nat
  props : Props
deriving DecidableEq

/-- The AGE graph store.  `nextId` models the store's allocation of fresh
internal identifiers. -/
structure Graph where
  vertices : List Vertex := []
  edges : List Edge := []
  nextId : Nat := 0
deriving DecidableEq

/-- A statement issued against the store during ingestion, as observed on the
connection: a Cypher CREATE of a vertex, a CREATE of an edge, or the fallback
lookup query of `_resolve_vertex_id`. -/
inductive Event where
  | vertexCreate
  | edgeCreate
  | lookupQ
deriving DecidableEq

/-- One `AGEGraphIngestion` session: the graph reached so far, the
`vertex_id_mapping` dict (external id ↦ AGE id; most recent binding first,
as assignment overwrites), and the ordered trace of statements issued. -/
structure Session where
  graph : Graph := {}
  mapping : List (String × Nat) := []
  trace : List Event := []
deriving DecidableEq

/-- `VertexData` from `ingestion.py`. -/
structure VertexData where
  label : String
  properties : Props
  external_id : Option String := none
deriving DecidableEq

/-- The `start_vertex_id` / `end_vertex_id` field of `EdgeData`: either an
AGE internal id (Python `int`) or an external id (Python `str`). -/
inductive VertexRef where
  | vid (n : Nat)
  | ext (s : String)
deriving DecidableEq

/-- `EdgeData` from `ingestion.py`. -/
structure EdgeData where
  label : String
  start_vertex_id : VertexRef
  end_vertex_id : VertexRef
  properties : Props
  start_vertex_label : Option String := none
  end_vertex_label : Option String := none
deriving DecidableEq

/-- Number of vertices carrying a given label (the "vertex count for that
label" of the spec's testable properties). -/
def countLabel (g : Graph) (L : String) : Nat :=
  (g.vertices.filter (fun v => v.label == L)).length

/-- `AGEGraphIngestion.ingest_vertex`: issues `CREATE (v:label props)`, which
unconditionally appends a fresh vertex, then registers
`vertex_id_mapping[external_id] = vertex_id` when `external_id` is truthy
(Python's `if vertex_data.external_id:` is false for `None` and `""`). -/
def ingestVertex (s : Session) (vd : VertexData) : Nat × Session :=
  let vid := s.graph.nextId
  let g : Graph :=
    { s.graph with
        vertices := s.graph.vertices ++ [⟨vid, vd.label, vd.properties⟩]
        nextId := vid + 1 }
  let m : List (String × Nat) :=
    match vd.external_id with
    | some e => if e = "" then s.mapping else (e, vid) :: s.mapping
    | none => s.mapping
  (vid, { graph := g, mapping := m, trace := s.trace ++ [Event.vertexCreate] })

/-- Cypher property-map matching: every key of the pattern is present on the
vertex with the same value. -/
def propsMatch (pattern vp : Props) : Bool :=
  pattern.all (fun kv => vp.lookup kv.1 == some kv.2)

/-- The `MERGE (a:label {props})` clause of `ingest_triplets`
(`age_ingestion2.py` line 66): reuse the first vertex of that label matching
the property map, otherwise create one carrying exactly the pattern. -/
def mergeVertex (g : Graph) (L : String) (pattern : Props) : Nat × Graph :=
  match g.vertices.find? (fun v => v.label == L && propsMatch pattern v.props) with
  | some v => (v.id, g)
  | none =>
      let vid := g.nextId
      (vid, { g with vertices := g.vertices ++ [⟨vid, L, pattern⟩], nextId := vid + 1 })

/-- Ids returned by the fallback lookup
`MATCH (v:label) WHERE v.external_id = x RETURN id(v)`, in store order. -/
def matchingIds (g : Graph) (L : String) (x : String) : List Nat :=
  (g.vertices.filter
    (fun v => v.label == L && v.props.lookup "external_id" == some (PyVal.vstr x))).map
    (fun v => v.id)

/-- `AGEGraphIngestion._resolve_vertex_id`: ints pass through; otherwise the
in-session mapping is consulted; otherwise, when a truthy label is supplied,
the fallback lookup runs (`fetchone` keeps only the FIRST row) and a hit is
cached; any remaining case raises `ValueError`.  The session is returned
alongside so that side effects (cache insertion, issued lookup statement)
survive an error, as they do across Python exceptions. -/
def resolveVertexId (s : Session) (r : VertexRef) (lbl : Option String) :
    Except String Nat × Session :=
  match r with
  | .vid n => (.ok n, s)
  | .ext x =>
    match s.mapping.lookup x with
    | some vid => (.ok vid, s)
    | none =>
      match lbl with
      | some L =>
          if L = "" then (.error ("Cannot resolve vertex ID: " ++ x), s)
          else
            let s1 : Session := { s with trace := s.trace ++ [Event.lookupQ] }
            match (matchingIds s.graph L x).head? with
            | some vid =>
                (.ok vid, { s1 with mapping := (x, vid) :: s1.mapping })
            | none => (.error ("Cannot resolve vertex ID: " ++ x), s1)
      | none => (.error ("Cannot resolve vertex ID: " ++ x), s)

/-- `AGEGraphIngestion.ingest_edge`: resolve both endpoints (resolution
failure propagates), then issue
`MATCH (a), (b) WHERE id(a) = s AND id(b) = e CREATE (a)-[r:label props]->(b)`.
The CREATE appends a fresh edge when both endpoint ids exist; when the match
finds nothing, `fetchone` returns no row and the code raises. -/
def ingestEdge (s : Session) (ed : EdgeData) : Except String Nat × Session :=
  let r1 := resolveVertexId s ed.start_vertex_id ed.start_vertex_label
  match r1.1 with
  | .error e => (.error e, r1.2)
  | .ok sid =>
    let r2 := resolveVertexId r1.2 ed.end_vertex_id ed.end_vertex_label
    match r2.1 with
    | .error e => (.error e, r2.2)
    | .ok eid =>
      let s3 : Session := { r2.2 with trace := r2.2.trace ++ [Event.edgeCreate] }
      if (s3.graph.vertices.any (fun v => v.id == sid)) &&
          (s3.graph.vertices.any (fun v => v.id == eid)) then
        let rid := s3.graph.nextId
        (.ok rid,
          { s3 with graph :=
              { s3.graph with
                  edges := s3.graph.edges ++ [⟨rid, ed.label, sid, eid, ed.properties⟩]
                  nextId := rid + 1 } })
      else (.error "Edge creation returned no result", s3)

/-- Number of edges of the graph matching a given edge on
(label, endpoints, properties) — the "matching edge count" of the spec. -/
def countSameEdge (g : Graph) (e : Edge) : Nat :=
  (g.edges.filter
    (fun x => x.label == e.label && x.startId == e.startId &&
      x.endId == e.endId && x.props == e.props)).length

/-- Length of CPython's `range(start, stop, step)` for `step ≠ 0`
(`(stop-start-1)//step + 1` when the range is non-empty). -/
def pyRangeLenI (start stop step : Int) : Nat :=
  if 0 < step then
    (if start < stop then ((stop - start - 1) / step + 1).toNat else 0)
  else if step < 0 then
    (if stop < start then ((start - stop - 1) / step + 1).toNat else 0)
  else 0

/-- The elements `start, start+step, ...` of a range of known length. -/
def pyRangeGo (step : Int) : Nat → Int → List Int
  | 0, _ => []
  | n + 1, s => s :: pyRangeGo step n (s + step)

/-- CPython's `list(range(start, stop, step))` for `step ≠ 0`. -/
def pyRange (start stop step : Int) : List Int :=
  pyRangeGo step (pyRangeLenI start stop step) start

/-- Python slicing `xs[i:j]` for `0 ≤ i ≤ j` already clamped to `Nat`. -/
def pySlice (xs : List α) (i j : Nat) : List α :=
  (xs.drop i).take (j - i)

/-- `AGEGraphIngestion.ingest_vertices_batch`: chunk the input with
`range(0, len(vertices), batch_size)`, and inside each chunk append the
vertex's id on success or `None` when `ingest_vertex` raised (the `except`
swallows the error and the loop continues).  `faults k` injects an exception
into the `k`-th `ingest_vertex` call (counting all calls of the run, which is
`len(vertex_ids) + len(batch_ids)` at that point); a faulted call leaves the
session unchanged.  `batch_size = 0` makes `range` raise `ValueError`,
modelled as `none`. -/
def ingestVerticesBatchS (faults : Nat → Bool) (s0 : Session)
    (vertices : List VertexData) (batch_size : Int) :
    Option (List (Option Nat) × Session) :=
  if batch_size = 0 then none
  else some <|
    (pyRange 0 vertices.length batch_size).foldl
      (fun acc i =>
        let batch := pySlice vertices i.toNat (i + batch_size).toNat
        let r := batch.foldl
          (fun (p : List (Option Nat) × Session) vd =>
            if faults (acc.1.length + p.1.length) then (p.1 ++ [none], p.2)
            else
              let iv := ingestVertex p.2 vd
              (p.1 ++ [some iv.1], iv.2))
          ([], acc.2)
        (acc.1 ++ r.1, r.2))
      ([], s0)

/-- Straight-line reference run: process the items one by one, `k` being the
index of the next `ingest_vertex` call. -/
def sequentialIngest (faults : Nat → Bool) :
    Nat → Session → List VertexData → List (Option Nat) × Session
  | _, s, [] => ([], s)
  | k, s, vd :: t =>
    if faults k then
      let r := sequentialIngest faults (k + 1) s t
      (none :: r.1, r.2)
    else
      let iv := ingestVertex s vd
      let r := sequentialIngest faults (k + 1) iv.2 t
      (some iv.1 :: r.1, r.2)

/-- `AGEGraphIngestion.ingest_edges_batch`: same chunking; a raised
`ingest_edge` (either an injected fault or an intrinsic resolution/creation
failure) is caught, `None` recorded, and the loop continues.  Side effects
that happened before an intrinsic failure (cache insertions, issued lookup
statements) persist, as they do across Python exceptions. -/
def ingestEdgesBatchS (faults : Nat → Bool) (s0 : Session)
    (edges : List EdgeData) (batch_size : Int) :
    Option (List (Option Nat) × Session) :=
  if batch_size = 0 then none
  else some <|
    (pyRange 0 edges.length batch_size).foldl
      (fun acc i =>
        let batch := pySlice edges i.toNat (i + batch_size).toNat
        let r := batch.foldl
          (fun (p : List (Option Nat) × Session) ed =>
            if faults (acc.1.length + p.1.length) then (p.1 ++ [none], p.2)
            else
              let r := ingestEdge p.2 ed
              match r.1 with
              | .ok eid => (p.1 ++ [some eid], r.2)
              | .error _ => (p.1 ++ [none], r.2))
          ([], acc.2)
        (acc.1 ++ r.1, r.2))
      ([], s0)

/-- The bulk payload of `bulk_ingest_from_dict`; a phase only runs when its
key is present in the dictionary. -/
structure BulkPayload where
  vertices : Option (List VertexData) := none
  edges : Option (List EdgeData) := none

/-- `AGEGraphIngestion.bulk_ingest_from_dict`: ingest all vertices first
(default batch size 1000), then all edges.  `vf` / `ef` inject per-item
faults into the two phases. -/
def bulkIngestFromDict (vf ef : Nat → Bool) (s0 : Session)
    (data : BulkPayload) : Session :=
  let s1 :=
    match data.vertices with
    | some vs =>
        match ingestVerticesBatchS vf s0 vs 1000 with
        | some r => r.2
        | none => s0
    | none => s0
  match data.edges with
  | some es =>
      match ingestEdgesBatchS ef s1 es 1000 with
      | some r => r.2
      | none => s1
  | none => s1

/-- Lowercase hexadecimal digit, as produced by Python's `json` encoder. -/
def hexDigit (n : Nat) : Char :=
  if n < 10 then Char.ofNat (48 + n) else Char.ofNat (87 + n)

/-- Four-digit lowercase hex rendering of `n < 0x10000`. -/
def hex4 (n : Nat) : List Char :=
  [hexDigit (n / 4096 % 16), hexDigit (n / 256 % 16), hexDigit (n / 16 % 16),
    hexDigit (n % 16)]

/-- `json.dumps` string-character escaping (default `ensure_ascii=True`):
quote and backslash are escaped, the usual control characters get their short
escapes, every other character outside printable ASCII 0x20–0x7e becomes a
`\uXXXX` escape (a surrogate pair beyond the BMP). -/
def jsonEscapeChar (c : Char) : List Char :=
  if c = '"' then ['\\', '"']
  else if c = '\\' then ['\\', '\\']
  else if c = '\n' then ['\\', 'n']
  else if c = '\t' then ['\\', 't']
  else if c = '\r' then ['\\', 'r']
  else if c.toNat = 8 then ['\\', 'b']
  else if c.toNat = 12 then ['\\', 'f']
  else if 0x20 ≤ c.toNat ∧ c.toNat ≤ 0x7e then [c]
  else if c.toNat < 0x10000 then '\\' :: 'u' :: hex4 c.toNat
  else
    ('\\' :: 'u' :: hex4 (0xd800 + (c.toNat - 0x10000) / 0x400)) ++
      ('\\' :: 'u' :: hex4 (0xdc00 + (c.toNat - 0x10000) % 0x400))

/-- The quoted JSON string literal `json.dumps` emits for a string value:
this is the quoting step of `_convert_properties_to_agtype`
(`ingestion.py` line 85). -/
def jsonStringLit (s : List Char) : List Char :=
  '"' :: (s.map jsonEscapeChar).flatten ++ ['"']

/-- Inverse of the simple JSON escapes. -/
def unescapeChar (c : Char) : Option Char :=
  if c = '"' then some '"'
  else if c = '\\' then some '\\'
  else if c = '/' then some '/'
  else if c = 'n' then some '\n'
  else if c = 't' then some '\t'
  else if c = 'r' then some '\r'
  else if c = 'b' then some (Char.ofNat 8)
  else if c = 'f' then some (Char.ofNat 12)
  else none

/-- Scan the body of a quoted JSON string (the opening quote already
consumed): returns the decoded value and the input remaining after the
closing quote.  An unterminated literal or an unknown escape yields `none`.
This scanner defines what "the value is embedded fully inside its quoted
form" means: the literal ends exactly where the encoder closed it. -/
def jsonBody : List Char → Option (List Char × List Char)
  | [] => none
  | c :: rest =>
    if c = '"' then some ([], rest)
    else if c = '\\' then
      match rest with
      | [] => none
      | e :: rest2 =>
        match unescapeChar e, jsonBody rest2 with
        | some u, some (s, r) => some (u :: s, r)
        | _, _ => none
    else
      match jsonBody rest with
      | some (s, r) => some (c :: s, r)
      | none => none

/-- Parse a quoted JSON string literal at the head of the input. -/
def jsonStringParse (l : List Char) : Option (List Char × List Char) :=
  match l with
  | c :: rest => if c = '"' then jsonBody rest else none
  | [] => none

/-- Decimal rendering of a Python int (via `Int.repr`). -/
def jsonIntChars (n : Int) : List Char :=
  (toString n).data

/-- `json.dumps` of one property value. -/
def jsonValueChars : PyVal → List Char
  | .vstr s => jsonStringLit s.data
  | .vint n => jsonIntChars n
  | .vbool b => if b then "true".data else "false".data

/-- `_convert_properties_to_agtype` (`ingestion.py` lines 71–85):
`json.dumps` of the converted dict, with the default separators
`", "` and `": "`; keys and string values go through the quoted-literal
encoder above. -/
def convertPropertiesToAgtype (props : Props) : List Char :=
  Char.ofNat 123 ::
    (List.intercalate (", ".data)
      (props.map (fun kv => jsonStringLit kv.1.data ++ (": ".data) ++ jsonValueChars kv.2))) ++
    [Char.ofNat 125]

/-- The property formatter of `age_ingestion3.py` `ingest_triplets`
(lines 66–68): `', '.join([f"{k}: '{v}'" for k, v in props.items()])` —
each value is interpolated verbatim between single quotes, with no
escaping whatsoever. -/
def tripletPropsStr (props : List (String × String)) : String :=
  String.intercalate ", "
    (props.map (fun kv => kv.1 ++ ": \x27" ++ kv.2 ++ "\x27"))

/-- SQL statements issued by the partition-reorganization scripts. -/
inductive SqlStmt where
  | copyTable (src dst : String)
  | dropTable (t : String)
  | dropIfExists (t : String)
  | createPartParent (t : String)
  | createPartChild (t : String)
  | insertFrom (dst src : String)
  | renameTable (src dst : String)
deriving DecidableEq

/-- The relational store: table name ↦ rows (rows kept abstract as `Nat`). -/
abbrev TableStore := List (String × List Nat)

def lookupTable (st : TableStore) (t : String) : Option (List Nat) :=
  st.lookup t

def removeTable (st : TableStore) (t : String) : TableStore :=
  st.filter (fun p => !(p.1 == t))

def setTable (st : TableStore) (t : String) (rows : List Nat) : TableStore :=
  removeTable st t ++ [(t, rows)]

/-- One statement against the store; `none` is a raised database error
(creating an existing table, dropping or renaming a missing one).  With
`autocommit = True` each statement is atomic: a failed statement leaves the
store unchanged. -/
def execSql (st : TableStore) : SqlStmt → Option TableStore
  | .copyTable src dst =>
    match lookupTable st src with
    | some rows =>
        if (lookupTable st dst).isSome then none else some (setTable st dst rows)
    | none => none
  | .dropTable t =>
    match lookupTable st t with
    | some _ => some (removeTable st t)
    | none => none
  | .dropIfExists t => some (removeTable st t)
  | .createPartParent t =>
    if (lookupTable st t).isSome then none else some (setTable st t [])
  | .createPartChild t =>
    if (lookupTable st t).isSome then none else some (setTable st t [])
  | .insertFrom dst src =>
    match lookupTable st dst, lookupTable st src with
    | some d, some s => some (setTable st dst (d ++ s))
    | _, _ => none
  | .renameTable src dst =>
    match lookupTable st src with
    | some rows =>
        if (lookupTable st dst).isSome then none
        else some (setTable (removeTable st src) dst rows)
    | none => none

/-- Run statements in order inside one `try` block.  Each statement carries
an injected-fault flag (a database error raised by that statement before it
takes effect).  Returns the final store, the attempted statements (the one
that raised included), and whether the block completed. -/
def runSql : TableStore → List (SqlStmt × Bool) → TableStore × List SqlStmt × Bool
  | st, [] => (st, [], true)
  | st, (s, inj) :: rest =>
    if inj then (st, [s], false)
    else
      match execSql st s with
      | none => (st, [s], false)
      | some st2 =>
        let r := runSql st2 rest
        (r.1, s :: r.2.1, r.2.2)

/-- `_restore_from_backup` (`date_and_range_partitioned_age_schema.py`
lines 279–286), identical to the inline handler of `partitioned_schema.py`
lines 88–95: ONE `try` block running
`DROP TABLE IF EXISTS table` then `ALTER TABLE temp RENAME TO label`
(the rename stays in the schema, yielding the original qualified name),
whose `except` swallows any failure.  `dropInj` / `renameInj` inject a
database error into the respective statement. -/
def restoreFromBackup (dropInj renameInj : Bool) (tbl temp : String)
    (st : TableStore) : TableStore × List SqlStmt :=
  let r := runSql st [(SqlStmt.dropIfExists tbl, dropInj),
                      (SqlStmt.renameTable temp tbl, renameInj)]
  (r.1, r.2.1)

/-- The statements of the per-table `try` block of
`create_truly_partitioned_schema` (`partitioned_schema.py` lines 46–84):
copy into the shadow table, drop the original, create the partitioned parent
and its three children, repopulate from the shadow, drop the shadow. -/
def reorgStmts (tbl temp : String) : List SqlStmt :=
  [SqlStmt.copyTable tbl temp, SqlStmt.dropTable tbl, SqlStmt.createPartParent tbl,
    SqlStmt.createPartChild (tbl ++ "_p1"), SqlStmt.createPartChild (tbl ++ "_p2"),
    SqlStmt.createPartChild (tbl ++ "_p3"),
    SqlStmt.insertFrom tbl temp, SqlStmt.dropTable temp]

/-- One reorganization attempt (`partitioned_schema.py` lines 46–95):
run the `try` block; on any failure run the restore handler (itself fault
free here — its own intrinsic failures, e.g. renaming a missing shadow
table, are swallowed by its bare `except: pass`).  `inj i` injects a
database error into the `i`-th statement of the `try` block.  Returns the
final store and all attempted statements in order. -/
def reorgTable (inj : Nat → Bool) (tbl temp : String) (st : TableStore) :
    TableStore × List SqlStmt :=
  let prog := (reorgStmts tbl temp).enum.map (fun p => (p.2, inj p.1))
  let r := runSql st prog
  if r.2.2 then (r.1, r.2.1)
  else
    let h := restoreFromBackup false false tbl temp r.1
    (h.1, r.2.1 ++ h.2)

/-- A table of the `pg_tables` catalog view. -/
structure PgTable where
  schema : String
  name : String
  rows : List Nat
deriving DecidableEq

/-- Statements `cleanup_old_date_partitions` could issue: the catalog query
it runs, and the partition drop its source keeps commented out. -/
inductive CleanupStmt where
  | selectPartitions (schema pat : String)
  | dropPartition (schema name : String)
deriving DecidableEq

def isReadOnlyCleanup : CleanupStmt → Bool
  | .selectPartitions _ _ => true
  | .dropPartition _ _ => false

/-- Effect of a cleanup statement on the store: the catalog query reads only;
a drop would remove the partition table. -/
def applyCleanup (st : List PgTable) : CleanupStmt → List PgTable
  | .selectPartitions _ _ => st
  | .dropPartition sc n => st.filter (fun t => !(t.schema == sc && t.name == n))

/-- Sorted insertion for `ORDER BY tablename`. -/
def insertSorted (a : String) : List String → List String
  | [] => [a]
  | b :: t => if a < b then a :: b :: t else b :: insertSorted a t

def sortStrings (l : List String) : List String :=
  l.foldr insertSorted []

/-- `int(partition_name.split('_y')[-1])`, with `ValueError` as `none`. -/
def yearOfPartition (name : String) : Option Int :=
  ((name.splitOn "_y").getLastD name).toInt?

/-- `cleanup_old_date_partitions` (`date_and_range_partitioned_age_schema.py`
lines 363–417): query `pg_tables` for tables of the graph schema named
`table_y%` and not `%_default`, ordered by name; for each, parse the year
after the last `_y` (parse failures are caught and skipped) and flag it when
older than `current_year - keep_years`.  The drop of flagged partitions is
commented out in the source, so the only statement ever issued is the
catalog query.  Returns (flagged partition names, statements issued). -/
def cleanupOldDatePartitions (currentYear keepYears : Int) (graph tbl : String)
    (st : List PgTable) : List String × List CleanupStmt :=
  let cutoff := currentYear - keepYears
  let names := sortStrings
    ((st.filter (fun t => t.schema == graph && t.name.startsWith (tbl ++ "_y") &&
        !(t.name.endsWith "_default"))).map (fun t => t.name))
  let flagged := names.filter (fun n =>
    match yearOfPartition n with
    | some y => decide (y < cutoff)
    | none => false)
  (flagged, [CleanupStmt.selectPartitions graph (tbl ++ "_y%")])

/-- Number of chunks `range(0, n, B)` yields for a positive `B`. -/
def chunkCount (n B : Nat) : Nat :=
  if n = 0 then 0 else (n - 1) / B + 1

/-- The edge appended last to the session graph (the relationship a
successful `ingest_edge` just created). -/
def lastEdge (s : Session) : Edge :=
  s.graph.edges.getLastD ⟨0, "", 0, 0, []⟩

instance {α β : Type} [DecidableEq α] [DecidableEq β] : DecidableEq (Except α β) := fun a b =>
  match a, b with
  | .ok x, .ok y => decidable_of_iff (x = y) (by simp)
  | .error x, .error y => decidable_of_iff (x = y) (by simp)
  | .ok _, .error _ => isFalse (fun h2 => Except.noConfusion h2)
  | .error _, .ok _ => isFalse (fun h2 => Except.noConfusion h2)

/-- A concrete `VertexData` used by the concrete evaluations below. -/
def c1vd : VertexData := ⟨"Person", [("name", PyVal.vstr "Alice")], none⟩

/-- A store with two Person vertices sharing the external id "p1" (the
duplicate situation of the resolver claims). -/
def c5graph : Graph :=
  { vertices := [⟨1, "Person", [("external_id", PyVal.vstr "p1")]⟩,
                 ⟨2, "Person", [("external_id", PyVal.vstr "p1")]⟩],
    edges := [], nextId := 3 }

/-- A session over `c5graph` with an empty identity map. -/
def c5sess : Session := { graph := c5graph }

/-- A self-loop edge on vertex 0, used by the bulk-ordering evaluation. -/
def c6ed : EdgeData := ⟨"E", VertexRef.vid 0, VertexRef.vid 0, [], none, none⟩

/-- A session holding two vertices with ids 0 and 1. -/
def c8s0 : Session := { graph := { vertices := [⟨0, "P", []⟩, ⟨1, "C", []⟩], edges := [], nextId := 2 } }

/-- An edge between the two vertices of `c8s0`, by internal ids. -/
def c8ed : EdgeData :=
  ⟨"WORKS_AT", VertexRef.vid 0, VertexRef.vid 1, [("since", PyVal.vstr "2020")], none, none⟩

/-- The session reached after ingesting `c8ed` once into `c8s0`. -/
def c8s1 : Session :=
  { graph := { vertices := [⟨0, "P", []⟩, ⟨1, "C", []⟩],
               edges := [⟨2, "WORKS_AT", 0, 1, [("since", PyVal.vstr "2020")]⟩], nextId := 3 },
    mapping := [], trace := [Event.edgeCreate] }

/-- A Person with external id "p1". -/
def c10v1 : VertexData := ⟨"Person", [], some "p1"⟩

/-- A Company with the same external id "p1". -/
def c10v2 : VertexData := ⟨"Company", [], some "p1"⟩

theorem sequentialIngest_append (faults : Nat → Bool) (k : Nat) (s : Session)
    (xs ys : List VertexData) :
    sequentialIngest faults k s (xs ++ ys) =
      ((sequentialIngest faults k s xs).1 ++
        (sequentialIngest faults (k + xs.length) (sequentialIngest faults k s xs).2 ys).1,
       (sequentialIngest faults (k + xs.length) (sequentialIngest faults k s xs).2 ys).2) := by
  induction xs generalizing k s with
  | nil => simp [sequentialIngest]
  | cons v t ih =>
    simp only [List.cons_append, List.append_eq, sequentialIngest, List.length_cons]
    rw [show k + (t.length + 1) = (k + 1) + t.length by omega]
    by_cases h : faults k = true
    · simp [h, ih]
    · simp [h, ih]

theorem sequentialIngest_length (faults : Nat → Bool) (k : Nat) (s : Session)
    (xs : List VertexData) :
    (sequentialIngest faults k s xs).1.length = xs.length := by
  induction xs generalizing k s with
  | nil => simp [sequentialIngest]
  | cons v t ih =>
    simp only [sequentialIngest]
    by_cases h : faults k = true <;> simp [h, ih]

theorem sequentialIngest_get? (faults : Nat → Bool) (k : Nat) (s : Session)
    (xs : List VertexData) (i : Nat) :
    ((sequentialIngest faults k s xs).1.get? i).map Option.isSome =
      if i < xs.length then some (!(faults (k + i))) else none := by
  induction xs generalizing k s i with
  | nil => simp [sequentialIngest]
  | cons v t ih =>
    simp only [sequentialIngest]
    by_cases h : faults k = true
    · cases i with
      | zero => simp [h]
      | succ j =>
        simp only [h, if_true, List.get?_cons_succ, List.length_cons]
        rw [ih, show k + (j + 1) = (k + 1) + j by omega]
        by_cases hj : j < t.length <;> simp [hj, Nat.succ_lt_succ_iff]
    · cases i with
      | zero => simp [h]
      | succ j =>
        simp only [h, Bool.false_eq_true, if_false, List.get?_cons_succ, List.length_cons]
        rw [ih, show k + (j + 1) = (k + 1) + j by omega]
        by_cases hj : j < t.length <;> simp [hj, Nat.succ_lt_succ_iff]

theorem chunkCount_eq_zero (x B : Nat) (h : chunkCount x B = 0) : x = 0 := by
  by_cases hx : x = 0
  · exact hx
  · simp [chunkCount, hx] at h

theorem chunkCount_eq_one (x B : Nat) (h0 : 0 < x) (hle : x ≤ B) :
    chunkCount x B = 1 := by
  unfold chunkCount
  rw [if_neg (by omega)]
  rw [Nat.div_eq_of_lt (by omega)]

theorem chunkCount_sub (x B : Nat) (hB : 0 < B) (hx : B < x) :
    chunkCount x B = chunkCount (x - B) B + 1 := by
  unfold chunkCount
  rw [if_neg (by omega), if_neg (by omega)]
  have h1 : x - 1 = (x - B - 1) + B := by omega
  rw [h1, Nat.add_div_right _ hB]

theorem pyRangeLenI_natCast (n B : Nat) (hB : 0 < B) :
    pyRangeLenI 0 (n : Int) (B : Int) = chunkCount n B := by
  unfold pyRangeLenI chunkCount
  have hB' : (0 : Int) < (B : Int) := by exact_mod_cast hB
  rw [if_pos hB']
  by_cases hn : 0 < n
  · have h1 : (0 : Int) < (n : Int) := by exact_mod_cast hn
    rw [if_pos h1, if_neg (by omega)]
    have h2 : ((n : Int) - 0 - 1) = ((n - 1 : Nat) : Int) := by
      push_cast [Nat.cast_sub hn]
      ring
    rw [h2]
    rw [show ((n - 1 : Nat) : Int) / (B : Int) = (((n - 1) / B : Nat) : Int) from
      (Int.ofNat_ediv _ _).symm]
    rw [show ((((n - 1) / B : Nat) : Int) + 1) = (((n - 1) / B + 1 : Nat) : Int) by push_cast; ring]
    exact Int.toNat_natCast _
  · have hn0 : n = 0 := by omega
    subst hn0
    simp

theorem innerFold_eq (faults : Nat → Bool) (L : Nat) (s : Session)
    (ws : List VertexData) (b0 : List (Option Nat)) :
    ws.foldl
      (fun (p : List (Option Nat) × Session) vd =>
        if faults (L + p.1.length) then (p.1 ++ [none], p.2)
        else
          let iv := ingestVertex p.2 vd
          (p.1 ++ [some iv.1], iv.2))
      (b0, s)
    = (b0 ++ (sequentialIngest faults (L + b0.length) s ws).1,
       (sequentialIngest faults (L + b0.length) s ws).2) := by
  induction ws generalizing s b0 with
  | nil => simp [sequentialIngest]
  | cons v t ih =>
    simp only [List.foldl_cons, sequentialIngest]
    by_cases h : faults (L + b0.length) = true
    · simp only [h, if_true]
      rw [ih]
      simp [Nat.add_assoc]
    · simp only [h, Bool.false_eq_true, if_false]
      rw [ih]
      simp [Nat.add_assoc]

theorem chunkFold_eq (faults : Nat → Bool) (vertices : List VertexData) (B : Nat) (hB : 0 < B) :
    ∀ (q m : Nat) (acc : List (Option Nat)) (s : Session),
      acc.length = m →
      q = chunkCount (vertices.length - m) B →
      (pyRangeGo (B : Int) q (m : Int)).foldl
        (fun acc i =>
          let batch := pySlice vertices i.toNat (i + (B : Int)).toNat
          let r := batch.foldl
            (fun (p : List (Option Nat) × Session) vd =>
              if faults (acc.1.length + p.1.length) then (p.1 ++ [none], p.2)
              else
                let iv := ingestVertex p.2 vd
                (p.1 ++ [some iv.1], iv.2))
            ([], acc.2)
          (acc.1 ++ r.1, r.2))
        (acc, s)
      = (acc ++ (sequentialIngest faults m s (vertices.drop m)).1,
         (sequentialIngest faults m s (vertices.drop m)).2) := by
  intro q
  induction q with
  | zero =>
    intro m acc s hlen hq
    have hx : vertices.length - m = 0 := chunkCount_eq_zero _ _ hq.symm
    have hdrop : vertices.drop m = [] := List.drop_eq_nil_of_le (by omega)
    simp [pyRangeGo, hdrop, sequentialIngest]
  | succ q ih =>
    intro m acc s hlen hq
    have hx : 0 < vertices.length - m := by
      by_contra hc
      have h0 : vertices.length - m = 0 := by omega
      rw [h0] at hq
      simp [chunkCount] at hq
    have hm : ((m : Int)).toNat = m := Int.toNat_natCast m
    have hmB : ((m : Int) + (B : Int)).toNat = m + B := by
      rw [← Nat.cast_add]
      exact Int.toNat_natCast _
    simp only [pyRangeGo, List.foldl_cons, hm, hmB]
    have hslice : pySlice vertices m (m + B) = (vertices.drop m).take B := by
      simp [pySlice]
    rw [hslice]
    rw [innerFold_eq]
    simp only [List.length_nil, List.nil_append, Nat.add_zero, hlen]
    by_cases hxB : vertices.length - m ≤ B
    · have hq0 : q = 0 := by
        have h1 := chunkCount_eq_one (vertices.length - m) B hx hxB
        omega
      subst hq0
      have hbatch : (vertices.drop m).take B = vertices.drop m := by
        apply List.take_of_length_le
        simp [List.length_drop]
        omega
      rw [hbatch]
      simp [pyRangeGo]
    · have hxB' : B < vertices.length - m := by omega
      have hbl : ((vertices.drop m).take B).length = B := by
        simp [List.length_take, List.length_drop]
        omega
      have hlen2 :
          (acc ++ (sequentialIngest faults m s ((vertices.drop m).take B)).1).length = m + B := by
        simp [hlen, sequentialIngest_length, hbl]
      have hq' : q = chunkCount (vertices.length - (m + B)) B := by
        have h1 := chunkCount_sub (vertices.length - m) B hB hxB'
        rw [show vertices.length - (m + B) = vertices.length - m - B by omega]
        omega
      have hcast : ((m : Int) + (B : Int)) = ((m + B : Nat) : Int) := by push_cast; ring
      rw [hcast, ih (m + B) _ _ hlen2 hq']
      have hsplit : vertices.drop m = (vertices.drop m).take B ++ vertices.drop (m + B) := by
        conv_lhs => rw [← List.take_append_drop B (vertices.drop m)]
        rw [List.drop_drop]
      conv_rhs => rw [hsplit]
      rw [sequentialIngest_append]
      simp [hbl, List.append_assoc]

theorem ingestVerticesBatchS_eq_sequential (faults : Nat → Bool) (s0 : Session)
    (vs : List VertexData) (bs : Int) (hbs : 0 < bs) :
    ingestVerticesBatchS faults s0 vs bs = some (sequentialIngest faults 0 s0 vs) := by
  have hne : bs ≠ 0 := by omega
  have hcast : ((bs.toNat : Nat) : Int) = bs := Int.toNat_of_nonneg (le_of_lt hbs)
  have hB : 0 < bs.toNat := by omega
  unfold ingestVerticesBatchS
  rw [if_neg hne]
  congr 1
  rw [← hcast]
  unfold pyRange
  rw [pyRangeLenI_natCast vs.length bs.toNat hB]
  rw [show (0 : Int) = ((0 : Nat) : Int) from rfl]
  rw [chunkFold_eq faults vs bs.toNat hB (chunkCount vs.length bs.toNat) 0 [] s0 rfl
    (by rw [Nat.sub_zero])]
  simp

theorem lookup_eq_of_nodup_keys {l : Props} (hnd : (l.map Prod.fst).Nodup)
    {k : String} {v : PyVal} (hm : (k, v) ∈ l) : l.lookup k = some v := by
  induction l with
  | nil => cases hm
  | cons kv t ih =>
    rw [List.mem_cons] at hm
    rw [List.map_cons] at hnd
    rcases List.nodup_cons.mp hnd with ⟨hknot, hnd2⟩
    rcases hm with he | hm
    · rw [← he]
      simp [List.lookup]
    · have hk : k ≠ kv.1 := by
        intro he2
        apply hknot
        rw [← he2]
        exact List.mem_map_of_mem Prod.fst hm
      simp only [List.lookup]
      rw [show (k == kv.1) = false from beq_eq_false_iff_ne.mpr hk]
      exact ih hnd2 hm

theorem propsMatch_self (ps : Props) (hnd : (ps.map Prod.fst).Nodup) :
    propsMatch ps ps = true := by
  rw [propsMatch, List.all_eq_true]
  intro kv hkv
  rw [lookup_eq_of_nodup_keys hnd (by simpa using hkv)]
  simp

theorem mergeVertex_countLabel_stable (g : Graph) (L : String) (ps : Props)
    (hnd : (ps.map Prod.fst).Nodup) :
    countLabel (mergeVertex (mergeVertex g L ps).2 L ps).2 L
      = countLabel (mergeVertex g L ps).2 L := by
  rcases h : g.vertices.find? (fun v => v.label == L && propsMatch ps v.props) with _ | v
  · have hg1 : (mergeVertex g L ps).2 =
        { g with vertices := g.vertices ++ [⟨g.nextId, L, ps⟩], nextId := g.nextId + 1 } := by
      simp [mergeVertex, h]
    obtain ⟨v2, hv2⟩ : ∃ v2, ((g.vertices ++ [(⟨g.nextId, L, ps⟩ : Vertex)]).find?
        (fun v => v.label == L && propsMatch ps v.props)) = some v2 := by
      rcases hv : ((g.vertices ++ [(⟨g.nextId, L, ps⟩ : Vertex)]).find?
          (fun v => v.label == L && propsMatch ps v.props)) with _ | v2
      · exfalso
        rw [List.find?_eq_none] at hv
        have h2 := hv ⟨g.nextId, L, ps⟩ (by simp)
        simp [propsMatch_self ps hnd] at h2
      · exact ⟨v2, hv⟩
    rw [hg1]
    simp [mergeVertex, hv2]
  · simp [mergeVertex, h]

theorem ingestVertex_countLabel (s : Session) (vd : VertexData) :
    countLabel (ingestVertex s vd).2.graph vd.label = countLabel s.graph vd.label + 1 := by
  simp [ingestVertex, countLabel, List.filter_append]

theorem resolve_graph_eq (s : Session) (r : VertexRef) (lbl : Option String) :
    (resolveVertexId s r lbl).2.graph = s.graph := by
  unfold resolveVertexId
  cases r with
  | vid n => rfl
  | ext x =>
    rcases hy : s.mapping.lookup x with _ | vid
    · cases lbl with
      | none => simp [hy]
      | some L =>
        by_cases hL : L = ""
        · simp [hy, hL]
        · rcases hh : (matchingIds s.graph L x).head? with _ | vid2 <;> simp [hy, hL, hh]
    · simp [hy]

theorem resolve_preserves_lookup (s : Session) (r : VertexRef) (lbl : Option String)
    (x : String) (i : Nat) (h : s.mapping.lookup x = some i) :
    ((resolveVertexId s r lbl).2).mapping.lookup x = some i := by
  unfold resolveVertexId
  cases r with
  | vid n => exact h
  | ext y =>
    rcases hy : s.mapping.lookup y with _ | vid
    · cases lbl with
      | none => simpa [hy]
      | some L =>
        by_cases hL : L = ""
        · simpa [hy, hL]
        · rcases hh : (matchingIds s.graph L y).head? with _ | vid2
          · simpa [hy, hL, hh]
          · have hxy : x ≠ y := by
              intro he
              rw [he, hy] at h
              cases h
            simp only [hy, hL, hh]
            simp [List.lookup, beq_eq_false_iff_ne.mpr hxy, h]
    · simpa [hy]

theorem resolve_ok_lookup (s : Session) (r : VertexRef) (lbl : Option String)
    (i : Nat) (s2 : Session) (h : resolveVertexId s r lbl = (.ok i, s2)) :
    r = VertexRef.vid i ∨ (∃ x, r = VertexRef.ext x ∧ s2.mapping.lookup x = some i) := by
  cases r with
  | vid n =>
    left
    cases h
    rfl
  | ext y =>
    right
    refine ⟨y, rfl, ?_⟩
    unfold resolveVertexId at h
    rcases hy : s.mapping.lookup y with _ | vid
    · simp only [hy] at h
      cases lbl with
      | none => simp at h
      | some L =>
        by_cases hL : L = ""
        · simp [hL] at h
        · simp only [if_neg hL] at h
          rcases hh : (matchingIds s.graph L y).head? with _ | vid2
          · simp [hh] at h
          · simp only [hh, Prod.mk.injEq, Except.ok.injEq] at h
            obtain ⟨h1, h2⟩ := h
            subst h2
            simp [List.lookup, h1]
    · simp only [hy, Prod.mk.injEq, Except.ok.injEq] at h
      obtain ⟨h1, h2⟩ := h
      subst h2
      rw [hy, h1]

theorem resolve_ok_again (s t : Session) (r : VertexRef) (lbl : Option String)
    (i : Nat) (s2 : Session) (h : resolveVertexId s r lbl = (.ok i, s2))
    (hpres : ∀ x j, s2.mapping.lookup x = some j → t.mapping.lookup x = some j) :
    resolveVertexId t r lbl = (.ok i, t) := by
  rcases resolve_ok_lookup s r lbl i s2 h with hv | ⟨x, hx, hl⟩
  · subst hv
    rfl
  · subst hx
    have h2 := hpres x i hl
    unfold resolveVertexId
    simp [h2]

theorem ingestVertex_trace (s : Session) (vd : VertexData) :
    (ingestVertex s vd).2.trace = s.trace ++ [Event.vertexCreate] := rfl

theorem sequentialIngest_trace (faults : Nat → Bool) (k : Nat) (s : Session)
    (vs : List VertexData) :
    ∃ t, (sequentialIngest faults k s vs).2.trace = s.trace ++ t ∧
      ∀ e ∈ t, e = Event.vertexCreate := by
  induction vs generalizing k s with
  | nil => exact ⟨[], by simp [sequentialIngest], by simp⟩
  | cons v tl ih =>
    simp only [sequentialIngest]
    by_cases h : faults k = true
    · simp only [h, if_true]
      exact ih (k + 1) s
    · simp only [h, Bool.false_eq_true, if_false]
      obtain ⟨t, ht, hall⟩ := ih (k + 1) (ingestVertex s v).2
      refine ⟨Event.vertexCreate :: t, ?_, ?_⟩
      · rw [ht, ingestVertex_trace]
        simp
      · intro e he
        rcases List.mem_cons.mp he with he | he
        · exact he
        · exact hall e he

theorem resolve_trace (s : Session) (r : VertexRef) (lbl : Option String) :
    ∃ t, (resolveVertexId s r lbl).2.trace = s.trace ++ t ∧
      ∀ e ∈ t, e = Event.lookupQ := by
  unfold resolveVertexId
  cases r with
  | vid n => exact ⟨[], by simp, by simp⟩
  | ext x =>
    rcases hy : s.mapping.lookup x with _ | vid
    · cases lbl with
      | none => exact ⟨[], by simp [hy], by simp⟩
      | some L =>
        by_cases hL : L = ""
        · exact ⟨[], by simp [hy, hL], by simp⟩
        · rcases hh : (matchingIds s.graph L x).head? with _ | vid2
          · exact ⟨[Event.lookupQ], by simp [hy, hL, hh], by simp⟩
          · exact ⟨[Event.lookupQ], by simp [hy, hL, hh], by simp⟩
    · exact ⟨[], by simp [hy], by simp⟩

theorem ingestEdge_trace (s : Session) (ed : EdgeData) :
    ∃ t, (ingestEdge s ed).2.trace = s.trace ++ t ∧
      ∀ e ∈ t, e ≠ Event.vertexCreate := by
  unfold ingestEdge
  rcases hr1 : resolveVertexId s ed.start_vertex_id ed.start_vertex_label with ⟨res1, sA⟩
  obtain ⟨t1, ht1, hall1⟩ := resolve_trace s ed.start_vertex_id ed.start_vertex_label
  rw [hr1] at ht1
  simp only [hr1]
  cases res1 with
  | error e =>
    exact ⟨t1, by simpa using ht1, fun e he => by rw [hall1 e he]; simp⟩
  | ok sid =>
    rcases hr2 : resolveVertexId sA ed.end_vertex_id ed.end_vertex_label with ⟨res2, sB⟩
    obtain ⟨t2, ht2, hall2⟩ := resolve_trace sA ed.end_vertex_id ed.end_vertex_label
    rw [hr2] at ht2
    simp only [hr2]
    cases res2 with
    | error e =>
      refine ⟨t1 ++ t2, ?_, ?_⟩
      · simp only []
        rw [ht2, ht1, List.append_assoc]
      · intro e he
        rcases List.mem_append.mp he with he | he
        · rw [hall1 e he]; simp
        · rw [hall2 e he]; simp
    | ok eid =>
      simp only []
      by_cases hc : ((sB.graph.vertices.any (fun v => v.id == sid)) &&
          (sB.graph.vertices.any (fun v => v.id == eid))) = true
      · rw [if_pos hc]
        refine ⟨t1 ++ t2 ++ [Event.edgeCreate], ?_, ?_⟩
        · simp only []
          rw [ht2, ht1]
          simp [List.append_assoc]
        · intro e he
          rcases List.mem_append.mp he with he | he
          · rcases List.mem_append.mp he with he | he
            · rw [hall1 e he]; simp
            · rw [hall2 e he]; simp
          · rcases List.mem_singleton.mp he with rfl
            simp
      · rw [if_neg hc]
        refine ⟨t1 ++ t2 ++ [Event.edgeCreate], ?_, ?_⟩
        · simp only []
          rw [ht2, ht1]
          simp [List.append_assoc]
        · intro e he
          rcases List.mem_append.mp he with he | he
          · rcases List.mem_append.mp he with he | he
            · rw [hall1 e he]; simp
            · rw [hall2 e he]; simp
          · rcases List.mem_singleton.mp he with rfl
            simp

theorem edgeInnerFold_trace (faults : Nat → Bool) (L : Nat) (ws : List EdgeData) :
    ∀ (b : List (Option Nat)) (s : Session),
    ∃ t, ((ws.foldl (fun (p : List (Option Nat) × Session) ed =>
        if faults (L + p.1.length) then (p.1 ++ [none], p.2)
        else
          let r := ingestEdge p.2 ed
          match r.1 with
          | .ok eid => (p.1 ++ [some eid], r.2)
          | .error _ => (p.1 ++ [none], r.2)) (b, s)).2).trace = s.trace ++ t ∧
      ∀ e ∈ t, e ≠ Event.vertexCreate := by
  induction ws with
  | nil => exact fun b s => ⟨[], by simp, by simp⟩
  | cons ed tl ih =>
    intro b s
    simp only [List.foldl_cons]
    by_cases h : faults (L + b.length) = true
    · simp only [h, if_true]
      exact ih (b ++ [none]) s
    · simp only [h, Bool.false_eq_true, if_false]
      obtain ⟨t1, ht1, hall1⟩ := ingestEdge_trace s ed
      cases hres : (ingestEdge s ed).1 with
      | ok eid =>
        simp only [hres]
        obtain ⟨t2, ht2, hall2⟩ := ih (b ++ [some eid]) (ingestEdge s ed).2
        refine ⟨t1 ++ t2, ?_, ?_⟩
        · rw [ht2, ht1, List.append_assoc]
        · intro e he
          rcases List.mem_append.mp he with he | he
          · exact hall1 e he
          · exact hall2 e he
      | error e2 =>
        simp only [hres]
        obtain ⟨t2, ht2, hall2⟩ := ih (b ++ [none]) (ingestEdge s ed).2
        refine ⟨t1 ++ t2, ?_, ?_⟩
        · rw [ht2, ht1, List.append_assoc]
        · intro e he
          rcases List.mem_append.mp he with he | he
          · exact hall1 e he
          · exact hall2 e he

theorem edgeChunkFold_trace (faults : Nat → Bool) (es : List EdgeData) (bs : Int)
    (ℓ : List Int) :
    ∀ (a : List (Option Nat)) (s : Session),
    ∃ t, ((ℓ.foldl (fun acc i =>
        let batch := pySlice es i.toNat (i + bs).toNat
        let r := batch.foldl
          (fun (p : List (Option Nat) × Session) ed =>
            if faults (acc.1.length + p.1.length) then (p.1 ++ [none], p.2)
            else
              let r := ingestEdge p.2 ed
              match r.1 with
              | .ok eid => (p.1 ++ [some eid], r.2)
              | .error _ => (p.1 ++ [none], r.2))
          ([], acc.2)
        (acc.1 ++ r.1, r.2)) (a, s)).2).trace = s.trace ++ t ∧
      ∀ e ∈ t, e ≠ Event.vertexCreate := by
  induction ℓ with
  | nil => exact fun a s => ⟨[], by simp, by simp⟩
  | cons i tl ih =>
    intro a s
    simp only [List.foldl_cons]
    obtain ⟨t1, ht1, hall1⟩ :=
      edgeInnerFold_trace faults a.length (pySlice es i.toNat (i + bs).toNat) [] s
    obtain ⟨t2, ht2, hall2⟩ := ih
      (a ++ ((pySlice es i.toNat (i + bs).toNat).foldl
        (fun (p : List (Option Nat) × Session) ed =>
          if faults (a.length + p.1.length) then (p.1 ++ [none], p.2)
          else
            let r := ingestEdge p.2 ed
            match r.1 with
            | .ok eid => (p.1 ++ [some eid], r.2)
            | .error _ => (p.1 ++ [none], r.2))
        ([], s)).1)
      ((pySlice es i.toNat (i + bs).toNat).foldl
        (fun (p : List (Option Nat) × Session) ed =>
          if faults (a.length + p.1.length) then (p.1 ++ [none], p.2)
          else
            let r := ingestEdge p.2 ed
            match r.1 with
            | .ok eid => (p.1 ++ [some eid], r.2)
            | .error _ => (p.1 ++ [none], r.2))
        ([], s)).2
    refine ⟨t1 ++ t2, ?_, ?_⟩
    · rw [ht2, ht1, List.append_assoc]
    · intro e he
      rcases List.mem_append.mp he with he | he
      · exact hall1 e he
      · exact hall2 e he

theorem ingestEdgesBatchS_trace (faults : Nat → Bool) (s0 : Session)
    (es : List EdgeData) (bs : Int) (rs : List (Option Nat)) (s1 : Session)
    (h : ingestEdgesBatchS faults s0 es bs = some (rs, s1)) :
    ∃ t, s1.trace = s0.trace ++ t ∧ ∀ e ∈ t, e ≠ Event.vertexCreate := by
  unfold ingestEdgesBatchS at h
  by_cases hz : bs = 0
  · simp [hz] at h
  · rw [if_neg hz] at h
    simp only [Option.some.injEq] at h
    obtain ⟨t, ht, hall⟩ := edgeChunkFold_trace faults es bs (pyRange 0 es.length bs) [] s0
    rw [h] at ht
    exact ⟨t, ht, hall⟩

theorem ingestVerticesBatchS_trace (faults : Nat → Bool) (s0 : Session)
    (vs : List VertexData) (bs : Int) (hbs : 0 < bs) (rs : List (Option Nat)) (s1 : Session)
    (h : ingestVerticesBatchS faults s0 vs bs = some (rs, s1)) :
    ∃ t, s1.trace = s0.trace ++ t ∧ ∀ e ∈ t, e = Event.vertexCreate := by
  rw [ingestVerticesBatchS_eq_sequential faults s0 vs bs hbs] at h
  simp only [Option.some.injEq] at h
  obtain ⟨t, ht, hall⟩ := sequentialIngest_trace faults 0 s0 vs
  rw [h] at ht
  exact ⟨t, ht, hall⟩

theorem bulkIngest_trace_split (vf ef : Nat → Bool) (s0 : Session) (pl : BulkPayload) :
    ∃ tv te, (bulkIngestFromDict vf ef s0 pl).trace = s0.trace ++ tv ++ te ∧
      (∀ e ∈ tv, e = Event.vertexCreate) ∧ (∀ e ∈ te, e ≠ Event.vertexCreate) := by
  unfold bulkIngestFromDict
  have hv : ∃ tv, (match pl.vertices with
      | some vs =>
          match ingestVerticesBatchS vf s0 vs 1000 with
          | some r => r.2
          | none => s0
      | none => s0).trace = s0.trace ++ tv ∧ ∀ e ∈ tv, e = Event.vertexCreate := by
    cases hpl : pl.vertices with
    | none => exact ⟨[], by simp, by simp⟩
    | some vs =>
      rcases hr : ingestVerticesBatchS vf s0 vs 1000 with _ | r
      · rw [ingestVerticesBatchS_eq_sequential vf s0 vs 1000 (by omega)] at hr
        cases hr
      · obtain ⟨tv, htv, hall⟩ :=
          ingestVerticesBatchS_trace vf s0 vs 1000 (by omega) r.1 r.2 (by rw [hr])
        exact ⟨tv, by simp [hr, htv], hall⟩
  obtain ⟨tv, htv, hallv⟩ := hv
  cases hpe : pl.edges with
  | none =>
    refine ⟨tv, [], ?_, hallv, by simp⟩
    simp only []
    rw [htv]
    simp
  | some es =>
    rcases hr2 : ingestEdgesBatchS ef (match pl.vertices with
      | some vs =>
          match ingestVerticesBatchS vf s0 vs 1000 with
          | some r => r.2
          | none => s0
      | none => s0) es 1000 with _ | r2
    · refine ⟨tv, [], ?_, hallv, by simp⟩
      simp only [hr2]
      rw [htv]
      simp
    · obtain ⟨te, hte, halle⟩ := ingestEdgesBatchS_trace ef _ es 1000 r2.1 r2.2 (by rw [hr2])
      refine ⟨tv, te, ?_, hallv, halle⟩
      simp only [hr2]
      rw [hte, htv, List.append_assoc]

theorem jsonBody_nil : jsonBody [] = none := by
  rw [jsonBody.eq_def]

theorem jsonBody_cons (c : Char) (l : List Char) :
    jsonBody (c :: l) =
      if c = '"' then some ([], l)
      else if c = '\\' then
        match l with
        | [] => none
        | e :: rest2 =>
          match unescapeChar e, jsonBody rest2 with
          | some u, some (s, r) => some (u :: s, r)
          | _, _ => none
      else
        match jsonBody l with
        | some (s, r) => some (c :: s, r)
        | none => none := by
  rw [jsonBody.eq_def]

theorem jsonBody_escaped (s rest : List Char)
    (h : ∀ c ∈ s, 0x20 ≤ c.toNat ∧ c.toNat ≤ 0x7e) :
    jsonBody ((s.map jsonEscapeChar).flatten ++ '"' :: rest) = some (s, rest) := by
  induction s with
  | nil =>
    simp only [List.map_nil, List.flatten_nil, List.nil_append]
    rw [jsonBody_cons, if_pos rfl]
  | cons c t ih =>
    have hc := h c (List.mem_cons_self c t)
    have ht : ∀ x ∈ t, 0x20 ≤ x.toNat ∧ x.toNat ≤ 0x7e :=
      fun x hx => h x (List.mem_cons_of_mem c hx)
    simp only [List.map_cons, List.flatten_cons, List.append_assoc]
    by_cases hq : c = '"'
    · subst hq
      rw [show jsonEscapeChar '"' = ['\\', '"'] from rfl]
      simp only [List.cons_append, List.nil_append]
      rw [jsonBody_cons, if_neg (by decide), if_pos rfl]
      simp [ih ht, unescapeChar]
    · by_cases hb : c = '\\'
      · subst hb
        rw [show jsonEscapeChar '\\' = ['\\', '\\'] from rfl]
        simp only [List.cons_append, List.nil_append]
        rw [jsonBody_cons, if_neg (by decide), if_pos rfl]
        simp [ih ht, unescapeChar]
      · have hn : c ≠ '\n' := by
          intro he
          rw [he] at hc
          exact absurd hc (by decide)
        have htb : c ≠ '\t' := by
          intro he
          rw [he] at hc
          exact absurd hc (by decide)
        have hr : c ≠ '\r' := by
          intro he
          rw [he] at hc
          exact absurd hc (by decide)
        have h8 : ¬(c.toNat = 8) := by omega
        have h12 : ¬(c.toNat = 12) := by omega
        have hesc : jsonEscapeChar c = [c] := by
          unfold jsonEscapeChar
          rw [if_neg hq, if_neg hb, if_neg hn, if_neg htb, if_neg hr, if_neg h8, if_neg h12,
            if_pos hc]
        rw [hesc]
        simp only [List.cons_append, List.nil_append]
        rw [jsonBody_cons, if_neg hq, if_neg hb, ih ht]

theorem mem_insertSorted (a x : String) (l : List String) :
    x ∈ insertSorted a l ↔ x = a ∨ x ∈ l := by
  induction l with
  | nil => simp [insertSorted]
  | cons b t ih =>
    unfold insertSorted
    by_cases h : a < b
    · simp [h]
    · simp [h, ih]
      tauto

theorem mem_sortStrings (x : String) (l : List String) :
    x ∈ sortStrings l ↔ x ∈ l := by
  induction l with
  | nil => simp [sortStrings]
  | cons b t ih =>
    unfold sortStrings at ih ⊢
    simp only [List.foldr_cons, mem_insertSorted, List.mem_cons, ih]

/-- C1 counterexample: `AGEGraphIngestion.ingest_vertex` issues CREATE, not a
merge-style upsert — ingesting the identical `VertexData` twice raises the
Person vertex count from 1 to 2, so the second run does not leave the count
for that label unchanged. -/
theorem ingest_vertex_twice_increases_count :
    countLabel ((ingestVertex (ingestVertex {} c1vd).2 c1vd).2).graph "Person" = 2 ∧
    countLabel ((ingestVertex {} c1vd).2).graph "Person" = 1 ∧
    countLabel ((ingestVertex (ingestVertex {} c1vd).2 c1vd).2).graph "Person"
      ≠ countLabel ((ingestVertex {} c1vd).2).graph "Person" := by decide

/-- C1 (amended): the MERGE clause of the triplet ingestors
(`age_ingestion2.py` / `age_ingestion3.py`) is idempotent on the vertex
count — merging the same label and property map twice leaves the count
unchanged — whereas `AGEGraphIngestion.ingest_vertex` issues a CREATE and
increments the label's vertex count on every call. -/
theorem merge_idempotent_and_create_increments (g : Graph) (L : String) (ps : Props) (s : Session)
    (hnd : (ps.map Prod.fst).Nodup) :
    countLabel (mergeVertex (mergeVertex g L ps).2 L ps).2 L
      = countLabel (mergeVertex g L ps).2 L ∧
    countLabel (ingestVertex s ⟨L, ps, none⟩).2.graph L = countLabel s.graph L + 1 :=
  ⟨mergeVertex_countLabel_stable g L ps hnd, ingestVertex_countLabel s ⟨L, ps, none⟩⟩

/-- C1 witness: the amended claim evaluated on a concrete graph, label and
property map. -/
theorem merge_idempotent_and_create_increments_witness :
    countLabel (mergeVertex (mergeVertex {} "Person" [("name", PyVal.vstr "Alice")]).2 "Person"
        [("name", PyVal.vstr "Alice")]).2 "Person"
      = countLabel (mergeVertex {} "Person" [("name", PyVal.vstr "Alice")]).2 "Person" ∧
    countLabel (ingestVertex {} ⟨"Person", [("name", PyVal.vstr "Alice")], none⟩).2.graph "Person"
      = countLabel ({} : Session).graph "Person" + 1 :=
  merge_idempotent_and_create_increments {} "Person" [("name", PyVal.vstr "Alice")] {} (by decide)

/-- C2 counterexample: the property formatter of
`age_ingestion3.py` `ingest_triplets` interpolates values between single
quotes with no escaping, so the two distinct property maps below produce
the identical encoded literal: a quote character inside the first value
terminates the quoted literal early and injects a second key — the encoding
is not injective with respect to quoting. -/
theorem triplet_props_encoding_not_injective :
    tripletPropsStr [("name", "a\x27, role: \x27b")]
      = tripletPropsStr [("name", "a"), ("role", "b")] ∧
    [("name", "a\x27, role: \x27b")] ≠ [("name", "a"), ("role", "b")] := by decide

/-- C2 (amended): the `json.dumps` quoting used by
`_convert_properties_to_agtype` is injection-safe: for every value over the
printable ASCII range — quote characters, backslashes and statement
delimiters included — parsing the encoded literal returns exactly the
original value and the untouched remainder of the input, so no value can
terminate the quoted literal early or add content outside it, and the
encoding is injective with respect to quoting. -/
theorem json_quoting_roundtrip (s rest : List Char)
    (h : ∀ c ∈ s, 0x20 ≤ c.toNat ∧ c.toNat ≤ 0x7e) :
    jsonStringParse (jsonStringLit s ++ rest) = some (s, rest) := by
  unfold jsonStringLit jsonStringParse
  simp only [List.cons_append, List.append_assoc, List.nil_append, List.singleton_append,
    eq_self_iff_true, if_true]
  exact jsonBody_escaped s rest h

/-- C2 witness: round trip of an adversarial value containing a quote, a
colon-separated fake key and a trailing backslash. -/
theorem json_quoting_roundtrip_witness :
    jsonStringParse (jsonStringLit ("pwn\", x: 1\\".data) ++ "tail".data)
      = some ("pwn\", x: 1\\".data, "tail".data) :=
  json_quoting_roundtrip ("pwn\", x: 1\\".data) ("tail".data) (by decide)

/-- C3 (code bug): in `create_truly_partitioned_schema` the backup copy is
issued before the drop on the success path (the first two statements of the
trace), and with no faults the table survives reorganization with its rows;
but when the copy itself is the statement that fails, the `except` handler
still executes `DROP TABLE IF EXISTS` on the original table and the rename
of the never-created shadow table fails and is swallowed — the original
table is gone, contradicting the claim (and the handler's own "restore
from backup" comment) that a copy failure leaves the table unchanged. -/
theorem copy_failure_rollback_drops_original :
    ((reorgTable (fun _ => false) "g.person" "g.person_temp" [("g.person", [7, 8])]).2.take 2
      = [SqlStmt.copyTable "g.person" "g.person_temp", SqlStmt.dropTable "g.person"]) ∧
    lookupTable (reorgTable (fun _ => false) "g.person" "g.person_temp"
      [("g.person", [7, 8])]).1 "g.person" = some [7, 8] ∧
    lookupTable (reorgTable (fun i => i == 0) "g.person" "g.person_temp"
      [("g.person", [7, 8])]).1 "g.person" = none ∧
    SqlStmt.dropIfExists "g.person" ∈ (reorgTable (fun i => i == 0) "g.person" "g.person_temp"
      [("g.person", [7, 8])]).2 := by decide

/-- C4 counterexample: with batch size -1 the `range(0, len(vertices),
batch_size)` loop is empty, so `ingest_vertices_batch` returns an empty
result list for a one-element input — the result sequence does not have the
input's length for every batch size. -/
theorem batch_ingest_negative_batch_size_mismatch :
    ingestVerticesBatchS (fun _ => false) {} [c1vd] (-1) = some ([], {}) ∧
    ([] : List (Option Nat)).length ≠ [c1vd].length := by decide

/-- C4 (amended): for every positive batch size the chunked batch ingest
equals the straight-line per-item run: the result list has exactly the
input's length, position i holds the vertex id of input i on success and
`none` on failure, and the outcome at position i is determined by that
item's own fault alone — a failure at one position never prevents the items
after it from being processed. -/
theorem batch_ingest_aligned_per_item (faults : Nat → Bool) (s0 : Session)
    (vs : List VertexData) (bs : Int) (hbs : 0 < bs) :
    ingestVerticesBatchS faults s0 vs bs = some (sequentialIngest faults 0 s0 vs) ∧
    (sequentialIngest faults 0 s0 vs).1.length = vs.length ∧
    ∀ i, ((sequentialIngest faults 0 s0 vs).1.get? i).map Option.isSome =
      if i < vs.length then some (!(faults i)) else none := by
  refine ⟨ingestVerticesBatchS_eq_sequential faults s0 vs bs hbs,
    sequentialIngest_length faults 0 s0 vs, ?_⟩
  intro i
  have h2 := sequentialIngest_get? faults 0 s0 vs i
  simpa using h2

/-- C4 witness: a two-element batch with batch size 1 whose first item
faults: the batch result equals the sequential run and keeps length 2. -/
theorem batch_ingest_aligned_per_item_witness :
    ingestVerticesBatchS (fun k => k == 0) {} [c1vd, c1vd] 1
      = some (sequentialIngest (fun k => k == 0) 0 {} [c1vd, c1vd]) ∧
    (sequentialIngest (fun k => k == 0) 0 {} [c1vd, c1vd]).1.length = [c1vd, c1vd].length :=
  ⟨(batch_ingest_aligned_per_item (fun k => k == 0) {} [c1vd, c1vd] 1 (by decide)).1,
   (batch_ingest_aligned_per_item (fun k => k == 0) {} [c1vd, c1vd] 1 (by decide)).2.1⟩

/-- C5 counterexample: a store holding two Person records with
external_id "p1": the fallback lookup matches both, yet `_resolve_vertex_id`
succeeds and returns candidate id 1 — the first row kept by `fetchone` —
instead of failing with an ambiguity error. -/
theorem resolver_returns_first_of_two_matches :
    (matchingIds c5graph "Person" "p1").length = 2 ∧
    resolveVertexId c5sess (.ext "p1") (some "Person")
      = (.ok 1, { graph := c5graph, mapping := [("p1", 1)], trace := [Event.lookupQ] }) := by
  decide

/-- C5 (amended): when the fallback lookup finds more than one matching
record, `_resolve_vertex_id` does not fail with `AmbiguousReferenceError`:
it returns, and caches, the first candidate id. -/
theorem resolver_picks_first_on_multiple_matches (s : Session) (x L : String) (a : Nat) (rest : List Nat)
    (hL : L ≠ "") (hm : s.mapping.lookup x = none)
    (hmatch : matchingIds s.graph L x = a :: rest) (hlen : rest ≠ []) :
    resolveVertexId s (.ext x) (some L)
      = (.ok a, { s with mapping := (x, a) :: s.mapping,
                         trace := s.trace ++ [Event.lookupQ] })
    ∧ a ∈ matchingIds s.graph L x := by
  constructor
  · unfold resolveVertexId
    simp [hm, hL, hmatch]
  · rw [hmatch]
    exact List.mem_cons_self a rest

/-- C5 witness: the amended claim at the concrete two-match store. -/
theorem resolver_picks_first_on_multiple_matches_witness :
    resolveVertexId c5sess (.ext "p1") (some "Person")
      = (.ok 1, { c5sess with
                  mapping := ("p1", 1) :: c5sess.mapping
                  trace := c5sess.trace ++ [Event.lookupQ] }) ∧
    1 ∈ matchingIds c5sess.graph "Person" "p1" :=
  resolver_picks_first_on_multiple_matches c5sess "p1" "Person" 1 [2] (by decide) (by decide) (by decide) (by decide)

/-- C6: `bulk_ingest_from_dict` is strictly two-phase: in the statement
trace of a bulk run started on a fresh session, every edge-creation
statement occurs strictly after every vertex-creation statement, for every
payload and every injection of per-item faults — no edge CREATE is issued
before the last vertex item has been processed. -/
theorem bulk_ingest_vertices_before_edges (vf ef : Nat → Bool) (s0 : Session) (pl : BulkPayload)
    (h0 : s0.trace = []) (p q : Nat)
    (hp : p < (bulkIngestFromDict vf ef s0 pl).trace.length)
    (hq : q < (bulkIngestFromDict vf ef s0 pl).trace.length)
    (hpe : (bulkIngestFromDict vf ef s0 pl).trace.get ⟨p, hp⟩ = Event.edgeCreate)
    (hqv : (bulkIngestFromDict vf ef s0 pl).trace.get ⟨q, hq⟩ = Event.vertexCreate) :
    q < p := by
  obtain ⟨tv, te, htr, hallv, halle⟩ := bulkIngest_trace_split vf ef s0 pl
  rw [h0, List.nil_append] at htr
  have hpe' : (tv ++ te).get? p = some Event.edgeCreate := by
    rw [← htr, List.get?_eq_get hp, hpe]
  have hqv' : (tv ++ te).get? q = some Event.vertexCreate := by
    rw [← htr, List.get?_eq_get hq, hqv]
  have hqlt : q < tv.length := by
    by_contra hc
    push_neg at hc
    rw [List.get?_append_right hc] at hqv'
    have hm := List.get?_mem hqv'
    exact (halle _ hm) rfl
  have hple : tv.length ≤ p := by
    by_contra hc
    push_neg at hc
    rw [List.get?_append hc] at hpe'
    have hm := List.get?_mem hpe'
    cases hallv _ hm
  omega

/-- C6 witness: a payload of one vertex and one edge; the edge statement is
at position 1, after the vertex statement at position 0. -/
theorem bulk_ingest_vertices_before_edges_witness : (0 : Nat) < 1 :=
  bulk_ingest_vertices_before_edges (fun _ => false) (fun _ => false) {} ⟨some [c1vd], some [c6ed]⟩ rfl 1 0
    (by decide) (by decide) (by decide) (by decide)

/-- C7 counterexample: when the drop raises inside `_restore_from_backup`,
the attempted-statement trace is just the drop — the rename of the shadow
table back to the original name is never attempted. -/
theorem rollback_drop_failure_skips_rename :
    (restoreFromBackup true false "g.person" "g.person_temp" [("g.person_temp", [5])]).2
      = [SqlStmt.dropIfExists "g.person"] ∧
    SqlStmt.renameTable "g.person_temp" "g.person" ∉
      (restoreFromBackup true false "g.person" "g.person_temp" [("g.person_temp", [5])]).2 := by
  decide

/-- C7 (amended): the drop and the rename of `_restore_from_backup` share a
single try/except, so rollback attempts the rename exactly when the drop
does not raise; a failing drop aborts the handler and the rename is
skipped, contrary to the claimed always-attempted rename. -/
theorem rollback_attempts_rename_iff_drop_succeeds (dropInj renameInj : Bool) (tbl temp : String)
    (st : TableStore) :
    SqlStmt.renameTable temp tbl ∈ (restoreFromBackup dropInj renameInj tbl temp st).2
      ↔ dropInj = false := by
  cases dropInj with
  | true => simp [restoreFromBackup, runSql]
  | false =>
    cases renameInj with
    | true => simp [restoreFromBackup, runSql, execSql]
    | false =>
      simp only [restoreFromBackup, runSql, execSql]
      rcases h : lookupTable (removeTable st tbl) temp with _ | rows
      · simp [h, runSql]
      · simp only [h]
        split
        · simp_all
        · split <;> simp

/-- C8: `ingest_edge` always issues a CREATE, never a merge: a successful
ingestion appends exactly one new relationship, a second run with the
identical `EdgeData` also succeeds and appends another with the same label,
endpoints and properties (fresh id), and when no matching edge pre-existed
the matching edge count after two runs is exactly twice the count after
one run. -/
theorem edge_ingest_always_creates_duplicates (s0 s1 : Session) (ed : EdgeData) (i1 : Nat)
    (h : ingestEdge s0 ed = (.ok i1, s1)) :
    s1.graph.edges = s0.graph.edges ++ [lastEdge s1] ∧
    (ingestEdge s1 ed).1 = .ok s1.graph.nextId ∧
    (ingestEdge s1 ed).2.graph.edges
      = s1.graph.edges ++ [{ lastEdge s1 with id := s1.graph.nextId }] ∧
    (countSameEdge s0.graph (lastEdge s1) = 0 →
      countSameEdge (ingestEdge s1 ed).2.graph (lastEdge s1)
          = 2 * countSameEdge s1.graph (lastEdge s1) ∧
      countSameEdge s1.graph (lastEdge s1) = 1) := by
  unfold ingestEdge at h
  rcases hr1 : resolveVertexId s0 ed.start_vertex_id ed.start_vertex_label with ⟨res1, sA⟩
  rw [hr1] at h
  simp only [] at h
  have hgA : sA.graph = s0.graph := by
    have h2 := resolve_graph_eq s0 ed.start_vertex_id ed.start_vertex_label
    rw [hr1] at h2
    exact h2
  cases res1 with
  | error e => simp at h
  | ok sid =>
    rcases hr2 : resolveVertexId sA ed.end_vertex_id ed.end_vertex_label with ⟨res2, sB⟩
    rw [hr2] at h
    simp only [] at h
    have hgB : sB.graph = s0.graph := by
      have h2 := resolve_graph_eq sA ed.end_vertex_id ed.end_vertex_label
      rw [hr2] at h2
      rw [h2, hgA]
    cases res2 with
    | error e => simp at h
    | ok eid =>
      simp only [] at h
      by_cases hc : ((sB.graph.vertices.any (fun v => v.id == sid)) &&
          (sB.graph.vertices.any (fun v => v.id == eid))) = true
      · rw [if_pos hc] at h
        simp only [Prod.mk.injEq, Except.ok.injEq] at h
        obtain ⟨hi1, hs1⟩ := h
        subst hs1
        have hres1' : resolveVertexId
            ({ graph := { vertices := sB.graph.vertices,
                          edges := sB.graph.edges ++
                            [⟨sB.graph.nextId, ed.label, sid, eid, ed.properties⟩],
                          nextId := sB.graph.nextId + 1 },
               mapping := sB.mapping,
               trace := sB.trace ++ [Event.edgeCreate] } : Session)
            ed.start_vertex_id ed.start_vertex_label
            = (.ok sid,
               { graph := { vertices := sB.graph.vertices,
                            edges := sB.graph.edges ++
                              [⟨sB.graph.nextId, ed.label, sid, eid, ed.properties⟩],
                            nextId := sB.graph.nextId + 1 },
                 mapping := sB.mapping,
                 trace := sB.trace ++ [Event.edgeCreate] }) :=
          resolve_ok_again s0 _ ed.start_vertex_id ed.start_vertex_label sid sA hr1
            (fun x j hx => by
              have h3 := resolve_preserves_lookup sA ed.end_vertex_id ed.end_vertex_label x j hx
              rw [hr2] at h3
              exact h3)
        have hres2' : resolveVertexId
            ({ graph := { vertices := sB.graph.vertices,
                          edges := sB.graph.edges ++
                            [⟨sB.graph.nextId, ed.label, sid, eid, ed.properties⟩],
                          nextId := sB.graph.nextId + 1 },
               mapping := sB.mapping,
               trace := sB.trace ++ [Event.edgeCreate] } : Session)
            ed.end_vertex_id ed.end_vertex_label
            = (.ok eid,
               { graph := { vertices := sB.graph.vertices,
                            edges := sB.graph.edges ++
                              [⟨sB.graph.nextId, ed.label, sid, eid, ed.properties⟩],
                            nextId := sB.graph.nextId + 1 },
                 mapping := sB.mapping,
                 trace := sB.trace ++ [Event.edgeCreate] }) :=
          resolve_ok_again sA _ ed.end_vertex_id ed.end_vertex_label eid sB hr2
            (fun x j hx => hx)
        have hsecond : ingestEdge
            ({ graph := { vertices := sB.graph.vertices,
                          edges := sB.graph.edges ++
                            [⟨sB.graph.nextId, ed.label, sid, eid, ed.properties⟩],
                          nextId := sB.graph.nextId + 1 },
               mapping := sB.mapping,
               trace := sB.trace ++ [Event.edgeCreate] } : Session) ed
            = (.ok (sB.graph.nextId + 1),
               { graph := { vertices := sB.graph.vertices,
                            edges := (sB.graph.edges ++
                              [⟨sB.graph.nextId, ed.label, sid, eid, ed.properties⟩]) ++
                              [⟨sB.graph.nextId + 1, ed.label, sid, eid, ed.properties⟩],
                            nextId := sB.graph.nextId + 1 + 1 },
                 mapping := sB.mapping,
                 trace := (sB.trace ++ [Event.edgeCreate]) ++ [Event.edgeCreate] }) := by
          unfold ingestEdge
          rw [hres1']
          simp only []
          rw [hres2']
          simp only []
          rw [if_pos (by simpa using hc)]
        refine ⟨?_, ?_, ?_, ?_⟩
        · simp [lastEdge, List.getLastD_concat, hgB]
        · rw [hsecond]
        · rw [hsecond]
          simp [lastEdge, List.getLastD_concat]
        · intro hzero
          rw [hsecond]
          simp only [lastEdge, List.getLastD_concat, countSameEdge, hgB] at hzero ⊢
          simp only [List.filter_append]
          simp [hzero]
      · rw [if_neg hc] at h
        simp at h

/-- C8 witness: a concrete session with two vertices; ingesting the same
edge twice yields matching-edge counts 1 and 2. -/
theorem edge_ingest_always_creates_duplicates_witness :
    ingestEdge c8s0 c8ed = (.ok 2, c8s1) ∧
    countSameEdge (ingestEdge c8s1 c8ed).2.graph (lastEdge c8s1)
        = 2 * countSameEdge c8s1.graph (lastEdge c8s1) ∧
    countSameEdge c8s1.graph (lastEdge c8s1) = 1 :=
  ⟨by decide,
   ((edge_ingest_always_creates_duplicates c8s0 c8s1 c8ed 2 (by decide)).2.2.2 (by decide)).1,
   ((edge_ingest_always_creates_duplicates c8s0 c8s1 c8ed 2 (by decide)).2.2.2 (by decide)).2⟩

/-- C9: `cleanup_old_date_partitions` is read-only: the only statement it
issues is the catalog query — replaying its statements leaves every table
of the store unchanged, every issued statement is a read, and each flagged
partition belongs to the graph schema and carries a year strictly older
than the cutoff; no drop or delete is ever issued (the drop in the source
is commented out). -/
theorem cleanup_old_partitions_read_only (currentYear keepYears : Int) (graph tbl : String)
    (st : List PgTable) :
    ((cleanupOldDatePartitions currentYear keepYears graph tbl st).2.foldl
        applyCleanup st = st) ∧
    (∀ s ∈ (cleanupOldDatePartitions currentYear keepYears graph tbl st).2,
        isReadOnlyCleanup s = true) ∧
    (∀ n ∈ (cleanupOldDatePartitions currentYear keepYears graph tbl st).1,
        ∃ y, yearOfPartition n = some y ∧ y < currentYear - keepYears) ∧
    (∀ n ∈ (cleanupOldDatePartitions currentYear keepYears graph tbl st).1,
        ∃ t ∈ st, t.name = n ∧ t.schema = graph) := by
  refine ⟨rfl, ?_, ?_, ?_⟩
  · intro s hs
    simp only [cleanupOldDatePartitions, List.mem_singleton] at hs
    subst hs
    rfl
  · intro n hn
    simp only [cleanupOldDatePartitions, List.mem_filter] at hn
    obtain ⟨hmem, hflag⟩ := hn
    rcases hy : yearOfPartition n with _ | y
    · rw [hy] at hflag
      cases hflag
    · rw [hy] at hflag
      exact ⟨y, rfl, by simpa using hflag⟩
  · intro n hn
    simp only [cleanupOldDatePartitions, List.mem_filter] at hn
    obtain ⟨hmem, hflag⟩ := hn
    rw [mem_sortStrings] at hmem
    simp only [List.mem_map, List.mem_filter] at hmem
    obtain ⟨t, ⟨htm, hcond⟩, hname⟩ := hmem
    refine ⟨t, htm, hname, ?_⟩
    simp only [Bool.and_eq_true, beq_iff_eq] at hcond
    exact hcond.1.1

/-- C10: the in-session identity map is keyed by external_id alone: after
ingesting two vertices with different labels but the same external id, the
second registration overwrites the first, and resolving that external id
with any label hint returns the id of the most recently ingested vertex
from the cache, before any fallback lookup — and that id differs from the
first vertex's id. -/
theorem identity_map_keyed_by_external_id_only (s0 : Session) (v1 v2 : VertexData) (e : String)
    (he : e ≠ "") (h1 : v1.external_id = some e) (h2 : v2.external_id = some e)
    (hl : v1.label ≠ v2.label) (lbl : Option String) :
    resolveVertexId (ingestVertex (ingestVertex s0 v1).2 v2).2 (.ext e) lbl
      = (.ok (ingestVertex (ingestVertex s0 v1).2 v2).1,
         (ingestVertex (ingestVertex s0 v1).2 v2).2)
    ∧ (ingestVertex (ingestVertex s0 v1).2 v2).1 ≠ (ingestVertex s0 v1).1 := by
  constructor
  · unfold resolveVertexId
    simp only [ingestVertex, h1, h2, if_neg he]
    simp [List.lookup]
  · simp [ingestVertex]

/-- C10 witness: a Person and a Company sharing external id "p1"; resolution
with the Company label hint returns the Company vertex's id. -/
theorem identity_map_keyed_by_external_id_only_witness :
    resolveVertexId (ingestVertex (ingestVertex {} c10v1).2 c10v2).2
        (.ext "p1") (some "Company")
      = (.ok (ingestVertex (ingestVertex {} c10v1).2 c10v2).1,
         (ingestVertex (ingestVertex {} c10v1).2 c10v2).2) ∧
    (ingestVertex (ingestVertex {} c10v1).2 c10v2).1 ≠ (ingestVertex {} c10v1).1 :=
  identity_map_keyed_by_external_id_only {} c10v1 c10v2 "p1" (by decide) rfl rfl (by decide) (some "Company")
